import Mathlib

/-!
Shallow embedding of the CHIP-8 interpreter in src/Chip8EMU.c.

The machine state mirrors `struct chip8`; the main emulation loop body
(timer update, input handling, fetch, and the opcode switch in `main`)
is embedded as the function `cycle`.  Machine integers are modelled as
`Nat` with explicit `% 2^w` where the C code's fixed-width arithmetic
wraps; byte arrays become total functions `Nat → Nat` (the C values are
always below 256), the 16-entry keypad latch is a `List Nat` of length
16 indexed with the option-returning `List.get?`, mirroring the
unchecked `key[V[x]]` access.
-/

namespace Chip8EMU

/-- Pointwise update of a function used to model C array assignment. -/
def updFn (f : Nat → Nat) (i v : Nat) : Nat → Nat :=
  fun j => if j = i then v else f j

/-- The machine state, mirroring `struct chip8` plus the `opcode`
local of `main`, which persists across loop iterations. -/
structure Chip8 where
  memory : Nat → Nat
  V : Nat → Nat
  I : Nat
  pc : Nat
  delay_timer : Nat
  sound_timer : Nat
  gfx : Nat → Nat
  key : List Nat
  stack : Nat → Nat
  sp : Nat
  opcode : Nat
  randCount : Nat

/-- Fatal conditions: the C code calls `exit(1)` on stack overflow and
on an unknown primary opcode; `keyOOB` marks the out-of-bounds keypad
read `key[V[x]]` with `V[x] ≥ 16`, which is undefined behavior in C. -/
inductive Fault where
  | stackOverflow
  | unknownOpcode
  | keyOOB
deriving DecidableEq, Repr

/-- Input consumed by one loop iteration: keypad events already mapped
to CHIP-8 key indices (from `handle_input`), whether 16 ms have elapsed
(the 60 Hz timer condition), and the key the blocking FX0A wait would
report (the keymap scan only ever yields indices 0..15). -/
structure CycleInput where
  events : List (Nat × Bool)
  tick : Bool
  waitKey : Fin 16

/-- Opcode field `n = opcode & 0x000F`. -/
def nibN (op : Nat) : Nat := op % 16

/-- Opcode field `nn = opcode & 0x00FF`. -/
def byteNN (op : Nat) : Nat := op % 256

/-- Opcode field `nnn = opcode & 0x0FFF`. -/
def addrNNN (op : Nat) : Nat := op % 4096

/-- Opcode field `x = (opcode & 0x0F00) >> 8`. -/
def fieldX (op : Nat) : Nat := op / 256 % 16

/-- Opcode field `y = (opcode & 0x00F0) >> 4`. -/
def fieldY (op : Nat) : Nat := op / 16 % 16

/-- Opcode field `verify = (opcode & 0xF000) >> 12`. -/
def topNib (op : Nat) : Nat := op / 4096 % 16

/-- Timer update at the top of the loop: each timer decrements when
positive and 16 ms have elapsed. -/
def tickTimers (tick : Bool) (s : Chip8) : Chip8 :=
  if tick then
    { s with
      delay_timer := if s.delay_timer > 0 then s.delay_timer - 1 else s.delay_timer
      sound_timer := if s.sound_timer > 0 then s.sound_timer - 1 else s.sound_timer }
  else s

/-- Keypad latch update from `handle_input`: each event stores 1 on key
down and 0 on key up at the mapped index (always below 16 in C; an
out-of-range `List.set` is a no-op). -/
def applyEvents (key : List Nat) : List (Nat × Bool) → List Nat
  | [] => key
  | e :: rest => applyEvents (key.set e.1 (if e.2 then 1 else 0)) rest

/-- The unchecked keypad read `Chip8.key[Chip8.V[x]]`, embedded as an
option-returning index into the 16-entry latch. -/
def keyLookup (s : Chip8) (v : Nat) : Option Nat :=
  s.key.get? v

/-- Pixel index computed by the draw instruction:
`(x_coord + col) + ((y_coord + row) * SCREEN_WIDTH)` — no modulo is
applied to the sums. -/
def cellIdx (xc yc row col : Nat) : Nat :=
  (xc + col) + (yc + row) * 64

/-- Sprite bit test `(pixel & (0x80 >> col)) != 0` on the sprite byte
fetched from `memory[I + row]`. -/
def spriteBit (mem : Nat → Nat) (I row col : Nat) : Nat :=
  mem (I + row) % 256 / 2 ^ (7 - col) % 2

/-- Body of the draw instruction's inner loop: if the sprite bit at
`col` is set, record a collision in VF and XOR the pixel. -/
def drawCell (xc yc row col : Nat) (s : Chip8) : Chip8 :=
  if spriteBit s.memory s.I row col = 1 then
    let idx := cellIdx xc yc row col
    let s1 := if s.gfx idx = 1 then { s with V := updFn s.V 15 1 } else s
    { s1 with gfx := updFn s1.gfx idx (Nat.xor (s1.gfx idx) 1) }
  else s

/-- One row of the draw instruction: columns 0..7. -/
def drawRow (xc yc row : Nat) (s : Chip8) : Chip8 :=
  (List.range 8).foldl (fun t col => drawCell xc yc row col t) s

/-- All rows of the draw instruction: rows 0..height-1. -/
def drawRows (xc yc height : Nat) (s : Chip8) : Chip8 :=
  (List.range height).foldl (fun t row => drawRow xc yc row t) s

/-- The draw instruction Dxyn: base coordinates are reduced modulo the
screen dimensions, VF is reset, then the sprite rows are XOR-composited. -/
def execDraw (x y n : Nat) (s : Chip8) : Chip8 :=
  let xc := s.V x % 256 % 64
  let yc := s.V y % 256 % 32
  drawRows xc yc n { s with V := updFn s.V 15 0 }

/-- The add-with-carry instruction 8xy4: the 16-bit sum sets VF first,
then the low byte is stored in V[x]. -/
def exec8xy4 (x y : Nat) (s : Chip8) : Chip8 :=
  let sum := s.V x % 256 + s.V y % 256
  let s1 := { s with V := updFn s.V 15 (if sum > 255 then 1 else 0) }
  { s1 with V := updFn s1.V x (sum % 256) }

/-- The register dump instruction FX55: `memory[I + i] = V[i]` for
`i = 0..x` inclusive. -/
def execFX55 (x : Nat) (s : Chip8) : Chip8 :=
  (List.range (x + 1)).foldl
    (fun t i => { t with memory := updFn t.memory (t.I + i) (t.V i) }) s

/-- The register load instruction FX65: `V[i] = memory[I + i]` for
`i = 0..x` inclusive. -/
def execFX65 (x : Nat) (s : Chip8) : Chip8 :=
  (List.range (x + 1)).foldl
    (fun t i => { t with V := updFn t.V i (t.memory (t.I + i)) }) s

/-- Memory indices written by the BCD instruction FX33 with index
register value `I`: no 12-bit mask is applied to `I + 1` and `I + 2`. -/
def bcdAddrs (I : Nat) : List Nat := [I, I + 1, I + 2]

/-- Memory indices touched by FX55 and FX65 with index register `I`
and register count `x`: the code computes `I + i` unmasked. -/
def dumpAddrs (I x : Nat) : List Nat :=
  (List.range (x + 1)).map (fun i => I + i)

/-- Memory indices fetched by the draw instruction for sprite rows:
the code computes `I + row` unmasked. -/
def drawAddrs (I n : Nat) : List Nat :=
  (List.range n).map (fun row => I + row)

/-- The opcode switch of `main`, applied to the post-fetch state.
Every case mirrors the corresponding `case` of the C switch, including
the exact order of register writes. -/
def execOp (rs : Nat → Nat) (inp : CycleInput) (op : Nat) (s : Chip8) :
    Except Fault Chip8 :=
  let n := nibN op
  let nn := byteNN op
  let nnn := addrNNN op
  let x := fieldX op
  let y := fieldY op
  match topNib op with
  | 0 =>
    if op = 0x00E0 then .ok { s with gfx := fun _ => 0 }
    else if op = 0x00EE then .ok { s with sp := (s.sp + 255) % 256 }
    else .ok s
  | 1 => .ok { s with pc := nnn }
  | 2 =>
    if s.sp < 16 then
      .ok { s with stack := updFn s.stack s.sp s.pc, sp := s.sp + 1, pc := nnn }
    else .error .stackOverflow
  | 3 => .ok (if s.V x = nn then { s with pc := (s.pc + 2) % 65536 } else s)
  | 4 => .ok (if s.V x ≠ nn then { s with pc := (s.pc + 2) % 65536 } else s)
  | 5 => .ok (if s.V x = s.V y then { s with pc := (s.pc + 2) % 65536 } else s)
  | 6 => .ok { s with V := updFn s.V x nn }
  | 7 => .ok { s with V := updFn s.V x ((s.V x + nn) % 256) }
  | 8 =>
    match n with
    | 0 => .ok { s with V := updFn s.V x (s.V y) }
    | 1 => .ok { s with V := updFn s.V x (Nat.lor (s.V x % 256) (s.V y % 256)) }
    | 2 => .ok { s with V := updFn s.V x (Nat.land (s.V x % 256) (s.V y % 256)) }
    | 3 => .ok { s with V := updFn s.V x (Nat.xor (s.V x % 256) (s.V y % 256)) }
    | 4 => .ok (exec8xy4 x y s)
    | 5 =>
      let s1 := { s with V := updFn s.V 15 (if s.V x % 256 ≥ s.V y % 256 then 1 else 0) }
      .ok { s1 with V := updFn s1.V x ((s1.V x % 256 + 256 - s1.V y % 256) % 256) }
    | 6 =>
      let s1 := { s with V := updFn s.V 15 (s.V x % 2) }
      .ok { s1 with V := updFn s1.V x (s1.V x % 256 / 2) }
    | 7 =>
      let s1 := { s with V := updFn s.V 15 (if s.V y % 256 ≥ s.V x % 256 then 1 else 0) }
      .ok { s1 with V := updFn s1.V x ((s1.V y % 256 + 256 - s1.V x % 256) % 256) }
    | 14 =>
      let s1 := { s with V := updFn s.V 15 (s.V x % 256 / 128) }
      .ok { s1 with V := updFn s1.V x (s1.V x * 2 % 256) }
    | _ => .ok s
  | 9 => .ok (if s.V x ≠ s.V y then { s with pc := (s.pc + 2) % 65536 } else s)
  | 10 => .ok { s with I := nnn }
  | 11 => .ok { s with pc := (nnn + s.V 0 % 256) % 65536 }
  | 12 =>
    .ok { s with V := updFn s.V x (Nat.land (rs s.randCount % 256) nn)
                 randCount := s.randCount + 1 }
  | 13 => .ok (execDraw x y n s)
  | 14 =>
    if nn = 0x9E then
      match keyLookup s (s.V x) with
      | none => .error .keyOOB
      | some k => .ok (if k ≠ 0 then { s with pc := (s.pc + 2) % 65536 } else s)
    else if nn = 0xA1 then
      match keyLookup s (s.V x) with
      | none => .error .keyOOB
      | some k => .ok (if k = 0 then { s with pc := (s.pc + 2) % 65536 } else s)
    else .ok s
  | 15 =>
    match nn with
    | 0x07 => .ok { s with V := updFn s.V x s.delay_timer }
    | 0x0A => .ok { s with V := updFn s.V x inp.waitKey.val }
    | 0x15 => .ok { s with delay_timer := s.V x % 256 }
    | 0x18 => .ok { s with sound_timer := s.V x % 256 }
    | 0x1E =>
      let s1 := { s with V := updFn s.V 15 (if s.I + s.V x % 256 > 0xFFF then 1 else 0) }
      .ok { s1 with I := (s1.I + s1.V x % 256) % 4096 }
    | 0x29 => .ok { s with I := (0x050 + s.V x % 256 * 5) % 65536 }
    | 0x33 =>
      let v := s.V x % 256
      let m1 := updFn s.memory s.I (v / 100)
      let m2 := updFn m1 (s.I + 1) (v / 10 % 10)
      .ok { s with memory := updFn m2 (s.I + 2) (v % 10) }
    | 0x55 => .ok (execFX55 x s)
    | 0x65 => .ok (execFX65 x s)
    | _ => .ok s
  | _ => .error .unknownOpcode

/-- The opcode a loop iteration will execute: a fresh fetch when
`pc + 1 < 4096`, otherwise the stale latched opcode (the C code has no
else branch on the fetch guard). -/
def fetchedOp (s : Chip8) : Nat :=
  if s.pc + 1 < 4096 then
    s.memory s.pc % 256 * 256 + s.memory (s.pc + 1) % 256
  else s.opcode

/-- State after the timer update and input handling that precede the
fetch in each loop iteration. -/
def preExec (inp : CycleInput) (s : Chip8) : Chip8 :=
  let s0 := tickTimers inp.tick s
  { s0 with key := applyEvents s0.key inp.events }

/-- One iteration of the main emulation loop: tick timers, handle
input, fetch (only when `pc + 1 < 4096`, advancing pc by 2 and
latching the opcode), then execute through the opcode switch.  The
random source `rs` models `rand()`: index 0 is the next value of the
deterministically seeded C PRNG stream. -/
def cycle (rs : Nat → Nat) (inp : CycleInput) (s : Chip8) : Except Fault Chip8 :=
  let s1 := preExec inp s
  if s1.pc + 1 < 4096 then
    let op := s1.memory s1.pc % 256 * 256 + s1.memory (s1.pc + 1) % 256
    execOp rs inp op { s1 with opcode := op, pc := (s1.pc + 2) % 65536 }
  else
    execOp rs inp s1.opcode s1

/-- Run the loop over a list of per-iteration inputs.  The random
stream `rs` is indexed by the running count of `rand()` calls kept in
the state, so index k is the value of the (k+1)-th call of the
deterministically seeded C PRNG. -/
def runCycles (rs : Nat → Nat) : List CycleInput → Chip8 → Except Fault Chip8
  | [], s => .ok s
  | inp :: rest, s =>
    match cycle rs inp s with
    | .ok s1 => runCycles rs rest s1
    | .error e => .error e

/-- The machine state right after construction in `main`: everything
zeroed by `memset`, `pc = 0x200`, `sp = 0`, and the ROM image copied to
addresses 0x200 onward by `load_rom`.  Nothing else is written — in
particular no font table is installed. -/
def initState (rom : List Nat) : Chip8 where
  memory := fun a =>
    if 0x200 ≤ a ∧ a < 0x200 + rom.length then rom.getD (a - 0x200) 0 else 0
  V := fun _ => 0
  I := 0
  pc := 0x200
  delay_timer := 0
  sound_timer := 0
  gfx := fun _ => 0
  key := List.replicate 16 0
  stack := fun _ => 0
  sp := 0
  opcode := 0
  randCount := 0

/-- An input with no events, no timer tick, and key 0 for FX0A. -/
def quietInput : CycleInput := ⟨[], false, ⟨0, by decide⟩⟩

/-- An all-zero random stream, standing in for a concrete PRNG output. -/
def rsZero : Nat → Nat := fun _ => 0

/-- Program counter of a run result (0 on a fault). -/
def pcOf : Except Fault Chip8 → Nat
  | .ok s => s.pc
  | .error _ => 0

/-- Stack pointer of a run result (17 on a fault, outside the legal range). -/
def spOf : Except Fault Chip8 → Nat
  | .ok s => s.sp
  | .error _ => 17

/-- Whether a run result is a fault. -/
def isFault : Except Fault Chip8 → Bool
  | .ok _ => false
  | .error _ => true

end Chip8EMU

namespace Chip8EMU

/-! Concrete states and programs used by the witnesses and
counterexamples below. -/

/-- A two-instruction program: call 0x204 from 0x200, return there. -/
def romCallRet : List Nat := [0x22, 0x04, 0x00, 0x00, 0x00, 0xEE]

/-- A program whose first instruction is a return at stack depth 0. -/
def romRetAtZero : List Nat := [0x00, 0xEE]

/-- A program setting V0 = 5, I = 0xFFF, then storing the BCD of V0. -/
def romBcdHigh : List Nat := [0x60, 0x05, 0xAF, 0xFF, 0xF0, 0x33]

/-- Memory byte of a run result (0 on a fault). -/
def memAt (r : Except Fault Chip8) (a : Nat) : Nat :=
  match r with
  | .ok s => s.memory a
  | .error _ => 0

/-- Index register of a run result (0 on a fault). -/
def regIOf : Except Fault Chip8 → Nat
  | .ok s => s.I
  | .error _ => 0

/-- A reset state whose program counter sits at the last memory byte,
so that `pc + 1 < 4096` fails at the next fetch. -/
def sPcHigh : Chip8 := { initState [] with pc := 4095 }

/-- A state about to draw one sprite row at base column 63 (`V0 = 63`,
`V1 = 0`): the sprite byte 0xC0 at `I = 0x300` has bits at columns 0
and 1, and column 1 falls past the right screen edge. -/
def sDrawEdge : Chip8 :=
  { initState [] with
      V := updFn (fun _ => 0) 0 63
      I := 0x300
      memory := fun a => if a = 0x300 then 0xC0 else 0 }

/-- A state with `V15 = 200` and `V0 = 100`, ready for an 8xy4
add-with-carry targeting the flag register itself. -/
def sAddFlag : Chip8 :=
  { initState [] with V := updFn (updFn (fun _ => 0) 15 200) 0 100 }

/-- C1.  The return instruction only decrements the stack pointer and
never restores the program counter from the stack.  Running the
call/return program: the call at 0x200 pushes 0x202 and jumps to
0x204; the return at 0x204 leaves the program counter at 0x206, not at
0x202, the address immediately after the call — though the stack depth
does return to 0. -/
theorem return_does_not_restore_pc :
    pcOf (runCycles rsZero [quietInput, quietInput] (initState romCallRet)) = 0x206 ∧
    spOf (runCycles rsZero [quietInput, quietInput] (initState romCallRet)) = 0 ∧
    (0x206 : Nat) ≠ 0x202 := by
  refine ⟨by decide, by decide, by decide⟩

/-- C3.  Memory addresses are not masked to 12 bits where they are
used: the BCD store with I = 0xFFF (reachable via the program
`6005 AFFF F033`) computes the unmasked indices 4096 and 4097 and the
run writes the ones digit 5 at address 4097, outside the 4096-byte
memory. -/
theorem bcd_writes_past_memory :
    (4096 ∈ bcdAddrs 0xFFF) ∧ (4097 ∈ bcdAddrs 0xFFF) ∧ ¬ (4096 < 4096) ∧
    regIOf (runCycles rsZero [quietInput, quietInput, quietInput]
      (initState romBcdHigh)) = 0xFFF ∧
    memAt (runCycles rsZero [quietInput, quietInput, quietInput]
      (initState romBcdHigh)) 4097 = 5 ∧
    isFault (runCycles rsZero [quietInput, quietInput, quietInput]
      (initState romBcdHigh)) = false := by
  refine ⟨by decide, by decide, by decide, by decide, by decide, by decide⟩

/-- C4 counterexample.  Executing a return at stack depth 0 (the
program `00EE` run for one cycle from reset) wraps the 8-bit stack
pointer to 255, which is outside the claimed invariant range 0..16. -/
theorem return_at_zero_breaks_sp_bound :
    spOf (runCycles rsZero [quietInput] (initState romRetAtZero)) = 255 ∧
    ¬ (255 ≤ 16) := by
  refine ⟨by decide, by decide⟩

/-- C5 counterexample.  Add-with-carry targeting the flag register
(x = 15): with V15 = 200 and V0 = 100 the sum 300 carries, but V15
ends at 44 — the low byte of the sum overwrites the carry flag — so
the post-state does not satisfy V15 = 1 iff the sum exceeded 255. -/
theorem addcarry_flag_clobbered_when_x_is_15 :
    sAddFlag.V 15 + sAddFlag.V 0 > 255 ∧
    (exec8xy4 15 0 sAddFlag).V 15 = 44 ∧
    ¬ ((exec8xy4 15 0 sAddFlag).V 15 = 1 ↔
        sAddFlag.V 15 + sAddFlag.V 0 > 255) := by
  refine ⟨by decide, by decide, by decide⟩

/-- C6.  After machine-state construction everything below 0x200 is
zero: `memset` clears the structure and `load_rom` writes only from
0x200 on, so the font region 0x050–0x09F holds no glyph data for any
loaded ROM — the font table is never installed. -/
theorem font_region_is_zero_after_init (rom : List Nat) (a : Nat)
    (h1 : 0x50 ≤ a) (h2 : a < 0xA0) : (initState rom).memory a = 0 := by
  simp only [initState]
  rw [if_neg]
  omega

/-- Witness for C6 at address 0x050 with the empty ROM. -/
theorem font_region_is_zero_after_init_witness :
    (initState []).memory 0x50 = 0 :=
  font_region_is_zero_after_init [] 0x50 (by decide) (by decide)

/-- C7.  The machine is deterministic: the whole loop body is a pure
function of the state, the per-cycle input (key events, timer tick,
wait-key report) and the PRNG stream, and the C PRNG is
deterministically seeded, so two runs from equal initial states with
equal input streams and pointwise-equal random streams agree after
every number of cycles — including cycles that execute Cxnn. -/
theorem run_is_deterministic (rs1 rs2 : Nat → Nat) (s1 s2 : Chip8)
    (inps1 inps2 : List CycleInput)
    (hrs : ∀ k, rs1 k = rs2 k) (hs : s1 = s2) (hin : inps1 = inps2) :
    ∀ m : Nat, runCycles rs1 (inps1.take m) s1 = runCycles rs2 (inps2.take m) s2 := by
  have hfun : rs1 = rs2 := funext hrs
  subst hfun; subst hs; subst hin
  intro m; rfl

/-- Witness for C7: two one-cycle runs of the call/return program. -/
theorem run_is_deterministic_witness :
    runCycles rsZero ([quietInput].take 1) (initState romCallRet) =
      runCycles rsZero ([quietInput].take 1) (initState romCallRet) :=
  run_is_deterministic rsZero rsZero (initState romCallRet) (initState romCallRet)
    [quietInput] [quietInput] (fun _ => rfl) rfl rfl 1

/-- C8 counterexample.  A state with pc = 4095 (so pc + 1 = 4096) does
not make the machine fault: the fetch guard has no else branch, the
fetch is skipped, and the stale latched opcode 0x0000 executes as a
no-op, leaving the state unchanged. -/
theorem fetch_guard_failure_does_not_fault :
    sPcHigh.pc + 1 ≥ 4096 ∧
    isFault (cycle rsZero quietInput sPcHigh) = false ∧
    pcOf (cycle rsZero quietInput sPcHigh) = 4095 := by
  refine ⟨by decide, by decide, by decide⟩

/-- C10.  The key-skip instructions index the 16-entry keypad latch
with the full byte value of V[x] and no mask: the option-returning
lookup is defined exactly when V[x] < 16, and the EX9E executor faults
on the out-of-bounds access whenever V[x] ≥ 16. -/
theorem key_skip_requires_vx_below_16 (rs : Nat → Nat) (inp : CycleInput)
    (s : Chip8) (x : Nat) (hx : x < 16) (hlen : s.key.length = 16) :
    ((keyLookup s (s.V x)).isSome ↔ s.V x < 16) ∧
    (16 ≤ s.V x →
      execOp rs inp (0xE000 + x * 256 + 0x9E) s = .error .keyOOB) := by
  constructor
  · rw [keyLookup]
    constructor
    · intro hsome
      by_contra hge
      rw [List.get?_eq_none.mpr (by omega)] at hsome
      simp at hsome
    · intro hlt
      have hne : s.key.get? (s.V x) ≠ none := by
        intro heq
        have := List.get?_eq_none.mp heq
        omega
      exact Option.ne_none_iff_isSome.mp hne
  · intro hge
    have ht : topNib (0xE000 + x * 256 + 0x9E) = 14 := by
      unfold topNib; omega
    have hnn : byteNN (0xE000 + x * 256 + 0x9E) = 0x9E := by
      unfold byteNN; omega
    have hfx : fieldX (0xE000 + x * 256 + 0x9E) = x := by
      unfold fieldX; omega
    have hnone : keyLookup s (s.V x) = none := by
      rw [keyLookup]
      exact List.get?_eq_none.mpr (by omega)
    unfold execOp
    rw [ht]
    simp [hnn, hfx, hnone]

/-- Witness for C10: an arbitrary fresh state with V3 = 200. -/
theorem key_skip_requires_vx_below_16_witness :
    (((keyLookup { initState [] with V := updFn (fun _ => 0) 3 200 }
        ({ initState [] with V := updFn (fun _ => 0) 3 200 }.V 3)).isSome ↔
      { initState [] with V := updFn (fun _ => 0) 3 200 }.V 3 < 16) ∧
     (16 ≤ { initState [] with V := updFn (fun _ => 0) 3 200 }.V 3 →
       execOp rsZero quietInput (0xE000 + 3 * 256 + 0x9E)
         { initState [] with V := updFn (fun _ => 0) 3 200 } = .error .keyOOB)) :=
  key_skip_requires_vx_below_16 rsZero quietInput
    { initState [] with V := updFn (fun _ => 0) 3 200 } 3 (by decide) (by decide)

end Chip8EMU

namespace Chip8EMU

/-- Timer update and input handling do not change the program counter. -/
theorem preExec_pc (inp : CycleInput) (s : Chip8) : (preExec inp s).pc = s.pc := by
  simp only [preExec, tickTimers]
  split <;> rfl

/-- Timer update and input handling do not change the latched opcode. -/
theorem preExec_opcode (inp : CycleInput) (s : Chip8) :
    (preExec inp s).opcode = s.opcode := by
  simp only [preExec, tickTimers]
  split <;> rfl

/-- Timer update and input handling do not change memory. -/
theorem preExec_memory (inp : CycleInput) (s : Chip8) :
    (preExec inp s).memory = s.memory := by
  simp only [preExec, tickTimers]
  split <;> rfl

/-- Timer update and input handling do not change the stack pointer. -/
theorem preExec_sp (inp : CycleInput) (s : Chip8) : (preExec inp s).sp = s.sp := by
  simp only [preExec, tickTimers]
  split <;> rfl

/-- C5 amended.  For byte values a = V[x], b = V[y] and any register
indices x ≠ 15, y: add-with-carry sets V15 to 1 iff a + b > 255 and
stores (a + b) mod 256 in V[x]; when x = 15 the flag is overwritten by
the low byte of the sum (see the counterexample). -/
theorem addcarry_ok (s : Chip8) (x y : Nat) (hx : x < 16) (hy : y < 16)
    (hxF : x ≠ 15) (ha : s.V x < 256) (hb : s.V y < 256) :
    ((exec8xy4 x y s).V 15 = 1 ↔ s.V x + s.V y > 255) ∧
    (exec8xy4 x y s).V x = (s.V x + s.V y) % 256 := by
  have h15 : (15 : Nat) ≠ x := fun h => hxF h.symm
  unfold exec8xy4
  simp only [updFn, Nat.mod_eq_of_lt ha, Nat.mod_eq_of_lt hb, if_neg h15,
    if_neg hxF, if_pos rfl]
  refine ⟨?_, rfl⟩
  by_cases hc : s.V x + s.V y > 255
  · simp [hc]
  · simp [hc]

/-- Witness for C5 amended: x = 0, y = 1 on a fresh state. -/
theorem addcarry_ok_witness :
    (((exec8xy4 0 1 (initState [])).V 15 = 1 ↔
        (initState []).V 0 + (initState []).V 1 > 255) ∧
     (exec8xy4 0 1 (initState [])).V 0 =
        ((initState []).V 0 + (initState []).V 1) % 256) :=
  addcarry_ok (initState []) 0 1 (by decide) (by decide) (by decide)
    (by decide) (by decide)

/-- C8 amended.  When pc + 1 ≥ 4096 at the start of a cycle the
machine does not fault: the fetch guard has no else branch, so the
fetch is skipped — pc and the latched opcode are left unchanged — and
the previously latched opcode is executed again. -/
theorem fetch_skipped_when_pc_high (rs : Nat → Nat) (inp : CycleInput)
    (s : Chip8) (h : s.pc + 1 ≥ 4096) :
    cycle rs inp s = execOp rs inp s.opcode (preExec inp s) ∧
    (preExec inp s).pc = s.pc ∧ (preExec inp s).opcode = s.opcode := by
  refine ⟨?_, preExec_pc inp s, preExec_opcode inp s⟩
  simp only [cycle]
  rw [preExec_pc, preExec_opcode, if_neg (by omega)]

/-- Witness for C8 amended at the concrete state with pc = 4095. -/
theorem fetch_skipped_when_pc_high_witness :
    cycle rsZero quietInput sPcHigh =
      execOp rsZero quietInput sPcHigh.opcode (preExec quietInput sPcHigh) ∧
    (preExec quietInput sPcHigh).pc = sPcHigh.pc ∧
    (preExec quietInput sPcHigh).opcode = sPcHigh.opcode :=
  fetch_skipped_when_pc_high rsZero quietInput sPcHigh (by decide)

end Chip8EMU

namespace Chip8EMU

/-- Unfolding one step of the register dump fold. -/
theorem execFX55_succ (x : Nat) (s : Chip8) :
    execFX55 (x + 1) s =
      { execFX55 x s with
          memory := updFn (execFX55 x s).memory ((execFX55 x s).I + (x + 1))
                          ((execFX55 x s).V (x + 1)) } := by
  unfold execFX55
  rw [List.range_succ, List.foldl_append]
  rfl

/-- The register dump leaves the register file unchanged. -/
theorem execFX55_V (x : Nat) (s : Chip8) : (execFX55 x s).V = s.V := by
  induction x with
  | zero => rfl
  | succ x ih => rw [execFX55_succ]; exact ih

/-- The register dump leaves the index register unchanged. -/
theorem execFX55_I (x : Nat) (s : Chip8) : (execFX55 x s).I = s.I := by
  induction x with
  | zero => rfl
  | succ x ih => rw [execFX55_succ]; exact ih

/-- After the register dump, memory at I + i holds V[i] for i ≤ x. -/
theorem execFX55_memory_hit (s : Chip8) : ∀ (x i : Nat), i ≤ x →
    (execFX55 x s).memory (s.I + i) = s.V i := by
  intro x
  induction x with
  | zero =>
    intro i hi
    have h0 : i = 0 := by omega
    subst h0
    show updFn s.memory (s.I + 0) (s.V 0) (s.I + 0) = s.V 0
    simp [updFn]
  | succ x ih =>
    intro i hi
    rw [execFX55_succ]
    show updFn (execFX55 x s).memory ((execFX55 x s).I + (x + 1))
        ((execFX55 x s).V (x + 1)) (s.I + i) = s.V i
    rw [execFX55_I, execFX55_V]
    by_cases hix : i = x + 1
    · subst hix; simp [updFn]
    · have hne : s.I + i ≠ s.I + (x + 1) := by omega
      simp only [updFn, if_neg hne]
      exact ih i (by omega)

/-- Unfolding one step of the register load fold. -/
theorem execFX65_succ (x : Nat) (s : Chip8) :
    execFX65 (x + 1) s =
      { execFX65 x s with
          V := updFn (execFX65 x s).V (x + 1)
                     ((execFX65 x s).memory ((execFX65 x s).I + (x + 1))) } := by
  unfold execFX65
  rw [List.range_succ, List.foldl_append]
  rfl

/-- The register load leaves memory unchanged. -/
theorem execFX65_memory (x : Nat) (s : Chip8) : (execFX65 x s).memory = s.memory := by
  induction x with
  | zero => rfl
  | succ x ih => rw [execFX65_succ]; exact ih

/-- The register load leaves the index register unchanged. -/
theorem execFX65_I (x : Nat) (s : Chip8) : (execFX65 x s).I = s.I := by
  induction x with
  | zero => rfl
  | succ x ih => rw [execFX65_succ]; exact ih

/-- Register file after the register load: V[j] = memory[I + j] for
j ≤ x, other registers untouched. -/
theorem execFX65_V_char (s : Chip8) : ∀ (x j : Nat),
    (execFX65 x s).V j = if j ≤ x then s.memory (s.I + j) else s.V j := by
  intro x
  induction x with
  | zero =>
    intro j
    show updFn s.V 0 (s.memory (s.I + 0)) j = _
    by_cases hj : j = 0
    · subst hj; simp [updFn]
    · simp [updFn, hj]
  | succ x ih =>
    intro j
    rw [execFX65_succ]
    show updFn (execFX65 x s).V (x + 1)
        ((execFX65 x s).memory ((execFX65 x s).I + (x + 1))) j = _
    rw [execFX65_memory, execFX65_I]
    by_cases hj : j = x + 1
    · subst hj; simp [updFn]
    · simp only [updFn, if_neg hj, ih j]
      by_cases hle : j ≤ x
      · rw [if_pos hle, if_pos (by omega)]
      · rw [if_neg hle, if_neg (by omega)]

/-- C9.  Register dump (FX55) followed immediately by register load
(FX65) with the same x and the same I restores the register file
exactly: the load reads back precisely the bytes the dump wrote at
I..I+x, and registers above x are touched by neither instruction. -/
theorem dump_load_roundtrip (s : Chip8) (x : Nat) (hx : x < 16)
    (hI : s.I + x < 4096) :
    (execFX65 x (execFX55 x s)).V = s.V := by
  funext j
  rw [execFX65_V_char]
  by_cases hj : j ≤ x
  · rw [if_pos hj, execFX55_I]
    exact execFX55_memory_hit s x j hj
  · rw [if_neg hj]
    rw [execFX55_V]

/-- Witness for C9: x = 3, I = 0x400, registers V[i] = 7i + 3. -/
theorem dump_load_roundtrip_witness :
    (execFX65 3 (execFX55 3
      { initState [] with V := fun i => (i * 7 + 3) % 256, I := 0x400 })).V =
    ({ initState [] with V := fun i => (i * 7 + 3) % 256, I := 0x400 } : Chip8).V :=
  dump_load_roundtrip
    { initState [] with V := fun i => (i * 7 + 3) % 256, I := 0x400 }
    3 (by decide) (by decide)

end Chip8EMU

namespace Chip8EMU

/-- One draw cell never changes the stack pointer. -/
theorem drawCell_sp (xc yc row col : Nat) (s : Chip8) :
    (drawCell xc yc row col s).sp = s.sp := by
  unfold drawCell
  split
  · dsimp only
    split <;> rfl
  · rfl

/-- One draw row never changes the stack pointer. -/
theorem drawRow_sp (xc yc row : Nat) (s : Chip8) :
    (drawRow xc yc row s).sp = s.sp := by
  unfold drawRow
  rw [show List.range 8 = [0, 1, 2, 3, 4, 5, 6, 7] from rfl]
  simp only [List.foldl_cons, List.foldl_nil, drawCell_sp]

/-- Unfolding one step of the draw instruction's row fold. -/
theorem drawRows_succ (xc yc h : Nat) (s : Chip8) :
    drawRows xc yc (h + 1) s = drawRow xc yc h (drawRows xc yc h s) := by
  unfold drawRows
  rw [List.range_succ, List.foldl_append]
  rfl

/-- The draw row fold never changes the stack pointer. -/
theorem drawRows_sp (xc yc h : Nat) (s : Chip8) :
    (drawRows xc yc h s).sp = s.sp := by
  induction h with
  | zero => rfl
  | succ h ih => rw [drawRows_succ, drawRow_sp]; exact ih

/-- The draw instruction never changes the stack pointer. -/
theorem execDraw_sp (x y n : Nat) (s : Chip8) : (execDraw x y n s).sp = s.sp := by
  unfold execDraw
  rw [drawRows_sp]

/-- Add-with-carry never changes the stack pointer. -/
theorem exec8xy4_sp (x y : Nat) (s : Chip8) : (exec8xy4 x y s).sp = s.sp := rfl

/-- Register dump never changes the stack pointer. -/
theorem execFX55_sp (x : Nat) (s : Chip8) : (execFX55 x s).sp = s.sp := by
  induction x with
  | zero => rfl
  | succ x ih => rw [execFX55_succ]; exact ih

/-- Register load never changes the stack pointer. -/
theorem execFX65_sp (x : Nat) (s : Chip8) : (execFX65 x s).sp = s.sp := by
  induction x with
  | zero => rfl
  | succ x ih => rw [execFX65_succ]; exact ih

/-- Any successfully executed opcode keeps sp ≤ 16, provided a return
is not executed at depth 0: the call pushes only when sp < 16 and
every other instruction leaves sp unchanged. -/
theorem execOp_sp (rs : Nat → Nat) (inp : CycleInput) (op : Nat) (s s' : Chip8)
    (h : execOp rs inp op s = .ok s') (hsp : s.sp ≤ 16)
    (hret : op = 0x00EE → 0 < s.sp) : s'.sp ≤ 16 := by
  simp only [execOp] at h
  repeat' split at h
  all_goals first
    | (simp only [Except.ok.injEq] at h; subst h;
       try simp only [execDraw_sp, execFX55_sp, execFX65_sp, exec8xy4_sp];
       first
         | exact hsp
         | omega)
    | (simp at h)

/-- C4 amended.  The stack-pointer bound sp ≤ 16 is preserved by every
cycle except one that executes a return at depth 0: the call pushes only
when sp < 16 and halts fatally otherwise, a return at depth sp ≥ 1
decrements sp, but a return at depth 0 wraps the 8-bit stack pointer to
255, outside the claimed range (see the counterexample). -/
theorem sp_bound_preserved (rs : Nat → Nat) (inp : CycleInput) (s s' : Chip8)
    (h : cycle rs inp s = .ok s') (hsp : s.sp ≤ 16)
    (hret : fetchedOp s = 0x00EE → 0 < s.sp) : s'.sp ≤ 16 := by
  have hm := preExec_memory inp s
  have hp := preExec_pc inp s
  have ho := preExec_opcode inp s
  have hs := preExec_sp inp s
  simp only [cycle, hm, hp, ho] at h
  by_cases hpc : s.pc + 1 < 4096
  · rw [if_pos hpc] at h
    refine execOp_sp rs inp _ _ s' h ?_ ?_
    · show (preExec inp s).sp ≤ 16
      rw [hs]; exact hsp
    · intro hop
      have hfe : fetchedOp s = 0x00EE := by
        rw [fetchedOp, if_pos hpc]; exact hop
      have hpos := hret hfe
      show 0 < (preExec inp s).sp
      rw [hs]; exact hpos
  · rw [if_neg hpc] at h
    refine execOp_sp rs inp _ _ s' h ?_ ?_
    · rw [hs]; exact hsp
    · intro hop
      have hfe : fetchedOp s = 0x00EE := by
        rw [fetchedOp, if_neg hpc]; exact hop
      rw [hs]; exact hret hfe

/-- Witness for C4 amended: a quiet cycle at the fetch-skipping state
with pc = 4095 and stale opcode 0 leaves the state unchanged. -/
theorem sp_bound_preserved_witness : sPcHigh.sp ≤ 16 :=
  sp_bound_preserved rsZero quietInput sPcHigh sPcHigh (by rfl) (by decide)
    (by decide)

end Chip8EMU

namespace Chip8EMU

/-- The column fold of one sprite row, cut off after `c` columns. -/
def drawCols (xc yc row c : Nat) (s : Chip8) : Chip8 :=
  (List.range c).foldl (fun t col => drawCell xc yc row col t) s

/-- A full draw row is the column fold over all 8 columns. -/
theorem drawRow_eq_drawCols (xc yc row : Nat) (s : Chip8) :
    drawRow xc yc row s = drawCols xc yc row 8 s := rfl

/-- Unfolding one step of the column fold. -/
theorem drawCols_succ (xc yc row c : Nat) (s : Chip8) :
    drawCols xc yc row (c + 1) s = drawCell xc yc row c (drawCols xc yc row c s) := by
  unfold drawCols
  rw [List.range_succ, List.foldl_append]
  rfl

/-- One draw cell never changes memory. -/
theorem drawCell_memory (xc yc row col : Nat) (s : Chip8) :
    (drawCell xc yc row col s).memory = s.memory := by
  unfold drawCell
  split
  · dsimp only
    split <;> rfl
  · rfl

/-- One draw cell never changes the index register. -/
theorem drawCell_I (xc yc row col : Nat) (s : Chip8) :
    (drawCell xc yc row col s).I = s.I := by
  unfold drawCell
  split
  · dsimp only
    split <;> rfl
  · rfl

/-- One draw cell never changes registers other than V15. -/
theorem drawCell_V_ne (xc yc row col j : Nat) (hj : j ≠ 15) (s : Chip8) :
    (drawCell xc yc row col s).V j = s.V j := by
  unfold drawCell
  split
  · dsimp only
    split
    · simp [updFn, hj]
    · rfl
  · rfl

/-- One draw cell leaves every other pixel untouched. -/
theorem drawCell_gfx_ne (xc yc row col j : Nat)
    (hj : j ≠ cellIdx xc yc row col) (s : Chip8) :
    (drawCell xc yc row col s).gfx j = s.gfx j := by
  unfold drawCell
  split
  · dsimp only
    split
    · simp [updFn, hj]
    · simp [updFn, hj]
  · rfl

/-- One draw cell XORs its own pixel with the sprite bit. -/
theorem drawCell_gfx_self (xc yc row col : Nat) (s : Chip8) :
    (drawCell xc yc row col s).gfx (cellIdx xc yc row col)
      = Nat.xor (s.gfx (cellIdx xc yc row col)) (spriteBit s.memory s.I row col) := by
  have hb : spriteBit s.memory s.I row col < 2 := Nat.mod_lt _ (by omega)
  unfold drawCell
  split
  · dsimp only
    rename_i hbit
    rw [hbit]
    split
    · simp [updFn]
    · simp [updFn]
  · rename_i hbit
    have h0 : spriteBit s.memory s.I row col = 0 := by omega
    rw [h0]
    exact (Nat.xor_zero _).symm

/-- Collision update of one draw cell on the flag register. -/
theorem drawCell_V15 (xc yc row col : Nat) (s : Chip8) :
    (drawCell xc yc row col s).V 15 =
      if spriteBit s.memory s.I row col = 1 ∧ s.gfx (cellIdx xc yc row col) = 1
      then 1 else s.V 15 := by
  unfold drawCell
  split
  · dsimp only
    rename_i hbit
    split
    · rename_i hg
      rw [if_pos ⟨hbit, hg⟩]
      simp [updFn]
    · rename_i hg
      rw [if_neg (fun hc => hg hc.2)]
  · rename_i hbit
    rw [if_neg (fun hc => hbit hc.1)]

/-- The column fold never changes memory. -/
theorem drawCols_memory (xc yc row : Nat) (s : Chip8) :
    ∀ c : Nat, (drawCols xc yc row c s).memory = s.memory := by
  intro c
  induction c with
  | zero => rfl
  | succ c ih => rw [drawCols_succ, drawCell_memory]; exact ih

/-- The column fold never changes the index register. -/
theorem drawCols_I (xc yc row : Nat) (s : Chip8) :
    ∀ c : Nat, (drawCols xc yc row c s).I = s.I := by
  intro c
  induction c with
  | zero => rfl
  | succ c ih => rw [drawCols_succ, drawCell_I]; exact ih

/-- The column fold never changes registers other than V15. -/
theorem drawCols_V_ne (xc yc row j : Nat) (hj : j ≠ 15) (s : Chip8) :
    ∀ c : Nat, (drawCols xc yc row c s).V j = s.V j := by
  intro c
  induction c with
  | zero => rfl
  | succ c ih => rw [drawCols_succ, drawCell_V_ne _ _ _ _ _ hj]; exact ih

/-- Pixels outside the processed columns of a row are untouched. -/
theorem drawCols_gfx_out (xc yc row : Nat) (s : Chip8) :
    ∀ (c j : Nat), (∀ col, col < c → j ≠ cellIdx xc yc row col) →
    (drawCols xc yc row c s).gfx j = s.gfx j := by
  intro c
  induction c with
  | zero => intro j _; rfl
  | succ c ih =>
    intro j hj
    rw [drawCols_succ, drawCell_gfx_ne _ _ _ _ _ (hj c (by omega))]
    exact ih j (fun col hcol => hj col (by omega))

/-- Within one row, distinct columns give distinct pixel indices. -/
theorem cellIdx_col_inj (xc yc row col col2 : Nat) (hne : col ≠ col2) :
    cellIdx xc yc row col ≠ cellIdx xc yc row col2 := by
  unfold cellIdx
  omega

/-- Pixel value after the column fold: each processed column's pixel
is the original value XOR the sprite bit. -/
theorem drawCols_gfx (xc yc row : Nat) (s : Chip8) :
    ∀ (c col : Nat), col < c →
    (drawCols xc yc row c s).gfx (cellIdx xc yc row col)
      = Nat.xor (s.gfx (cellIdx xc yc row col)) (spriteBit s.memory s.I row col) := by
  intro c
  induction c with
  | zero => intro col hcol; omega
  | succ c ih =>
    intro col hcol
    rw [drawCols_succ]
    by_cases hcc : col = c
    · subst hcc
      rw [drawCell_gfx_self, drawCols_memory, drawCols_I,
        drawCols_gfx_out xc yc row s col _
          (fun col2 hcol2 => cellIdx_col_inj xc yc row col col2 (by omega))]
    · rw [drawCell_gfx_ne _ _ _ _ _
        (cellIdx_col_inj xc yc row col c hcc)]
      exact ih col (by omega)

/-- Flag register after the column fold: 1 exactly when some processed
column collided or it was already 1. -/
theorem drawCols_V15 (xc yc row : Nat) (s : Chip8) :
    ∀ c : Nat,
    ((drawCols xc yc row c s).V 15 = 1 ↔
      (∃ col, col < c ∧ spriteBit s.memory s.I row col = 1 ∧
        s.gfx (cellIdx xc yc row col) = 1) ∨ s.V 15 = 1) := by
  intro c
  induction c with
  | zero =>
    constructor
    · intro h; exact Or.inr h
    · rintro (⟨col, hcol, _⟩ | h)
      · omega
      · exact h
  | succ c ih =>
    rw [drawCols_succ, drawCell_V15, drawCols_memory, drawCols_I,
      drawCols_gfx_out xc yc row s c _
        (fun col2 hcol2 => cellIdx_col_inj xc yc row c col2 (by omega))]
    by_cases hcc : spriteBit s.memory s.I row c = 1 ∧
        s.gfx (cellIdx xc yc row c) = 1
    · rw [if_pos hcc]
      constructor
      · intro _; exact Or.inl ⟨c, by omega, hcc.1, hcc.2⟩
      · intro _; rfl
    · rw [if_neg hcc]
      rw [ih]
      constructor
      · rintro (⟨col, hcol, h1, h2⟩ | h)
        · exact Or.inl ⟨col, by omega, h1, h2⟩
        · exact Or.inr h
      · rintro (⟨col, hcol, h1, h2⟩ | h)
        · by_cases hc2 : col = c
          · subst hc2; exact absurd ⟨h1, h2⟩ hcc
          · exact Or.inl ⟨col, by omega, h1, h2⟩
        · exact Or.inr h

/-- The flag register only ever moves to 1 during the column fold. -/
theorem drawCols_V15_cases (xc yc row : Nat) (s : Chip8) :
    ∀ c : Nat, (drawCols xc yc row c s).V 15 = 1 ∨
      (drawCols xc yc row c s).V 15 = s.V 15 := by
  intro c
  induction c with
  | zero => exact Or.inr rfl
  | succ c ih =>
    rw [drawCols_succ, drawCell_V15]
    split
    · exact Or.inl rfl
    · exact ih

/-- The row fold never changes memory. -/
theorem drawRows_memory (xc yc : Nat) (s : Chip8) :
    ∀ m : Nat, (drawRows xc yc m s).memory = s.memory := by
  intro m
  induction m with
  | zero => rfl
  | succ m ih =>
    rw [drawRows_succ, drawRow_eq_drawCols, drawCols_memory]
    exact ih

/-- The row fold never changes the index register. -/
theorem drawRows_I (xc yc : Nat) (s : Chip8) :
    ∀ m : Nat, (drawRows xc yc m s).I = s.I := by
  intro m
  induction m with
  | zero => rfl
  | succ m ih =>
    rw [drawRows_succ, drawRow_eq_drawCols, drawCols_I]
    exact ih

/-- Distinct rows give distinct pixel indices as long as the sprite
does not cross the right screen edge (xc + 7 < 64). -/
theorem cellIdx_row_inj (xc yc row col row2 col2 : Nat) (hxc : xc + 7 < 64)
    (hc : col < 8) (hc2 : col2 < 8) (hne : row ≠ row2) :
    cellIdx xc yc row col ≠ cellIdx xc yc row2 col2 := by
  unfold cellIdx
  omega

/-- Pixels belonging to no processed sprite cell are untouched by the
row fold. -/
theorem drawRows_gfx_out (xc yc : Nat) (s : Chip8) :
    ∀ (m j : Nat), (∀ row col, row < m → col < 8 → j ≠ cellIdx xc yc row col) →
    (drawRows xc yc m s).gfx j = s.gfx j := by
  intro m
  induction m with
  | zero => intro j _; rfl
  | succ m ih =>
    intro j hj
    rw [drawRows_succ, drawRow_eq_drawCols,
      drawCols_gfx_out xc yc m _ 8 j (fun col hcol => hj m col (by omega) hcol)]
    exact ih j (fun row col hrow hcol => hj row col (by omega) hcol)

/-- Pixel value after the row fold: each drawn cell's pixel is the
original value XOR its sprite bit, provided the sprite does not cross
the right screen edge. -/
theorem drawRows_gfx (xc yc : Nat) (s : Chip8) (hxc : xc + 7 < 64) :
    ∀ (m row col : Nat), row < m → col < 8 →
    (drawRows xc yc m s).gfx (cellIdx xc yc row col)
      = Nat.xor (s.gfx (cellIdx xc yc row col)) (spriteBit s.memory s.I row col) := by
  intro m
  induction m with
  | zero => intro row col hrow hcol; omega
  | succ m ih =>
    intro row col hrow hcol
    rw [drawRows_succ, drawRow_eq_drawCols]
    by_cases hrm : row = m
    · subst hrm
      rw [drawCols_gfx xc yc row _ 8 col hcol, drawRows_memory, drawRows_I,
        drawRows_gfx_out xc yc s row (cellIdx xc yc row col)
          (fun row2 col2 hrow2 hcol2 =>
            cellIdx_row_inj xc yc row col row2 col2 hxc hcol hcol2 (by omega))]
    · rw [drawCols_gfx_out xc yc m _ 8 (cellIdx xc yc row col)
          (fun col2 hcol2 =>
            cellIdx_row_inj xc yc row col m col2 hxc hcol hcol2 hrm)]
      exact ih row col (by omega) hcol

/-- Flag register after the row fold: 1 exactly when some drawn cell
collided with an already-set pixel, or it was already 1. -/
theorem drawRows_V15 (xc yc : Nat) (s : Chip8) (hxc : xc + 7 < 64) :
    ∀ m : Nat,
    ((drawRows xc yc m s).V 15 = 1 ↔
      (∃ row col, row < m ∧ col < 8 ∧ spriteBit s.memory s.I row col = 1 ∧
        s.gfx (cellIdx xc yc row col) = 1) ∨ s.V 15 = 1) := by
  intro m
  induction m with
  | zero =>
    constructor
    · exact Or.inr
    · rintro (⟨row, col, hrow, _⟩ | h)
      · omega
      · exact h
  | succ m ih =>
    rw [drawRows_succ, drawRow_eq_drawCols, drawCols_V15]
    simp only [drawRows_memory, drawRows_I]
    rw [ih]
    constructor
    · rintro (⟨col, hcol, h1, h2⟩ | (⟨row, col, hrow, hcol, h1, h2⟩ | h))
      · rw [drawRows_gfx_out xc yc s m _ (fun row2 col2 hrow2 hcol2 =>
          cellIdx_row_inj xc yc m col row2 col2 hxc hcol hcol2 (by omega))] at h2
        exact Or.inl ⟨m, col, by omega, hcol, h1, h2⟩
      · exact Or.inl ⟨row, col, by omega, hcol, h1, h2⟩
      · exact Or.inr h
    · rintro (⟨row, col, hrow, hcol, h1, h2⟩ | h)
      · by_cases hrm : row = m
        · subst hrm
          refine Or.inl ⟨col, hcol, h1, ?_⟩
          rw [drawRows_gfx_out xc yc s row _ (fun row2 col2 hrow2 hcol2 =>
            cellIdx_row_inj xc yc row col row2 col2 hxc hcol hcol2 (by omega))]
          exact h2
        · exact Or.inr (Or.inl ⟨row, col, by omega, hcol, h1, h2⟩)
      · exact Or.inr (Or.inr h)

/-- The flag register only ever moves to 1 during the row fold. -/
theorem drawRows_V15_cases (xc yc : Nat) (s : Chip8) :
    ∀ m : Nat, (drawRows xc yc m s).V 15 = 1 ∨
      (drawRows xc yc m s).V 15 = s.V 15 := by
  intro m
  induction m with
  | zero => exact Or.inr rfl
  | succ m ih =>
    rw [drawRows_succ, drawRow_eq_drawCols]
    rcases drawCols_V15_cases xc yc m (drawRows xc yc m s) 8 with h | h
    · exact Or.inl h
    · rw [h]
      exact ih

/-- C2 amended.  VF is first reset to 0 and the base coordinates are
V[x] mod 64 and V[y] mod 32, but the per-pixel sums are not reduced
modulo the screen dimensions: each set sprite bit toggles the
framebuffer cell at linear index (base_x + col) + (base_y + row)·64.
When the sprite stays on screen (base_x + 7 < 64, base_y + n ≤ 32) all
indices are in bounds, every touched pixel's new value equals its old
value XOR the sprite bit, and VF is 1 after drawing iff at least one
toggled pixel was already set. -/
theorem draw_ok (s : Chip8) (x y n : Nat)
    (hxc : s.V x % 256 % 64 + 7 < 64) (hyc : s.V y % 256 % 32 + n ≤ 32) :
    (∀ row col, row < n → col < 8 →
      cellIdx (s.V x % 256 % 64) (s.V y % 256 % 32) row col < 2048) ∧
    (∀ row col, row < n → col < 8 →
      (execDraw x y n s).gfx (cellIdx (s.V x % 256 % 64) (s.V y % 256 % 32) row col)
        = Nat.xor (s.gfx (cellIdx (s.V x % 256 % 64) (s.V y % 256 % 32) row col))
            (spriteBit s.memory s.I row col)) ∧
    ((execDraw x y n s).V 15 = 1 ↔
      ∃ row col, row < n ∧ col < 8 ∧ spriteBit s.memory s.I row col = 1 ∧
        s.gfx (cellIdx (s.V x % 256 % 64) (s.V y % 256 % 32) row col) = 1) ∧
    ((execDraw x y n s).V 15 = 0 ∨ (execDraw x y n s).V 15 = 1) := by
  have h0 : ({ s with V := updFn s.V 15 0 } : Chip8).V 15 = 0 := by simp [updFn]
  refine ⟨?_, ?_, ?_, ?_⟩
  · intro row col hrow hcol
    unfold cellIdx
    omega
  · intro row col hrow hcol
    exact drawRows_gfx (s.V x % 256 % 64) (s.V y % 256 % 32)
      { s with V := updFn s.V 15 0 } hxc n row col hrow hcol
  · show ((drawRows (s.V x % 256 % 64) (s.V y % 256 % 32) n
      { s with V := updFn s.V 15 0 }).V 15 = 1 ↔ _)
    rw [drawRows_V15 (s.V x % 256 % 64) (s.V y % 256 % 32)
      { s with V := updFn s.V 15 0 } hxc n, h0]
    constructor
    · rintro (h | h)
      · exact h
      · omega
    · exact Or.inl
  · rcases drawRows_V15_cases (s.V x % 256 % 64) (s.V y % 256 % 32)
      { s with V := updFn s.V 15 0 } n with h | h
    · exact Or.inr h
    · rw [h0] at h
      exact Or.inl h

/-- A state about to draw the sprite byte 0xC0 at base (10, 5), fully
on screen. -/
def sDrawW : Chip8 :=
  { initState [] with
      V := updFn (updFn (fun _ => 0) 0 10) 1 5
      I := 0x300
      memory := fun a => if a = 0x300 then 0xC0 else 0 }

/-- Witness for C2 amended at the on-screen draw state. -/
theorem draw_ok_witness :
    (∀ row col, row < 1 → col < 8 →
      cellIdx (sDrawW.V 0 % 256 % 64) (sDrawW.V 1 % 256 % 32) row col < 2048) ∧
    (∀ row col, row < 1 → col < 8 →
      (execDraw 0 1 1 sDrawW).gfx
          (cellIdx (sDrawW.V 0 % 256 % 64) (sDrawW.V 1 % 256 % 32) row col)
        = Nat.xor (sDrawW.gfx
            (cellIdx (sDrawW.V 0 % 256 % 64) (sDrawW.V 1 % 256 % 32) row col))
            (spriteBit sDrawW.memory sDrawW.I row col)) ∧
    ((execDraw 0 1 1 sDrawW).V 15 = 1 ↔
      ∃ row col, row < 1 ∧ col < 8 ∧ spriteBit sDrawW.memory sDrawW.I row col = 1 ∧
        sDrawW.gfx (cellIdx (sDrawW.V 0 % 256 % 64) (sDrawW.V 1 % 256 % 32) row col) = 1) ∧
    ((execDraw 0 1 1 sDrawW).V 15 = 0 ∨ (execDraw 0 1 1 sDrawW).V 15 = 1) :=
  draw_ok sDrawW 0 1 1 (by decide) (by decide)

/-- C2 counterexample.  At base column 63 (V0 = 63) with sprite byte
0xC0, the bit at column 1 is set, so the claim (per-pixel modulo)
says the pixel at x-coordinate (63 + 1) mod 64 = 0 of row 0 is
toggled; the code instead leaves that pixel at 0 and spills the bit
into the next framebuffer row. -/
theorem draw_no_pixel_wrap :
    spriteBit sDrawEdge.memory sDrawEdge.I 0 1 = 1 ∧
    sDrawEdge.V 0 % 64 = 63 ∧ sDrawEdge.V 1 % 32 = 0 ∧
    (execDraw 0 1 1 sDrawEdge).gfx
      ((sDrawEdge.V 0 + 1) % 64 + (sDrawEdge.V 1 + 0) % 32 * 64) = 0 ∧
    Nat.xor (sDrawEdge.gfx
      ((sDrawEdge.V 0 + 1) % 64 + (sDrawEdge.V 1 + 0) % 32 * 64)) 1 = 1 ∧
    (execDraw 0 1 1 sDrawEdge).gfx 64 = 1 := by
  refine ⟨by decide, by decide, by decide, by decide, by decide, by decide⟩

end Chip8EMU
